import Mathlib

/-!
Verification of the rusty-systems L-system core: a shallow embedding of the
symbol/token data model, the production model (context-sensitive heads and
stochastic bodies), the production store, the derivation engine and the
grammar parser, together with theorems about their behaviour.

Conventions of the embedding:
* Rust f32 chance values are modelled as exact rationals.
* Fallible Rust functions returning Result are modelled with an explicit
  result type carrying the error kind and message.
* A Rust panic (assertion failure, out-of-bounds slice) is modelled as a
  distinguished outcome: Option.none for the matching functions, and a
  dedicated constructor for the parser.
* The random value drawn inside body selection becomes an explicit argument.
-/

namespace RustySystems

/-- From src/tokens.rs: the kind of a token. -/
inductive TokenKind where
  | Terminal : TokenKind
  | Production : TokenKind
deriving DecidableEq, Repr

/-- From src/tokens.rs: TokenKind.is_terminal. -/
def TokenKind.is_terminal : TokenKind → Bool
  | TokenKind.Terminal => true
  | TokenKind.Production => false

/-- From src/tokens.rs: a token is a kind together with a numeric code. -/
structure Token where
  kind : TokenKind
  code : ℕ
deriving DecidableEq, Repr

/-- From src/tokens.rs: Token.is_terminal. -/
def Token.is_terminal (t : Token) : Bool :=
  t.kind.is_terminal

/-- From src/error.rs: the error taxonomy. -/
inductive ErrorKind where
  | General : ErrorKind
  | Parse : ErrorKind
  | Definitions : ErrorKind
  | Duplicate : ErrorKind
  | Execution : ErrorKind
  | Locking : ErrorKind
  | Io : ErrorKind
deriving DecidableEq, Repr

/-- From src/error.rs: an error is a kind plus a message. -/
structure RError where
  kind : ErrorKind
  message : String
deriving DecidableEq, Repr

/-- The outcome of a fallible Rust computation: an Ok value, an Err value,
or a panic (assertion failure or slice out of bounds). -/
inductive PRes (α : Type) where
  | ok : α → PRes α
  | err : RError → PRes α
  | panicked : PRes α
deriving DecidableEq, Repr

/-- Sequencing of fallible computations: errors and panics abort. -/
def pbind {α β : Type} : PRes α → (α → PRes β) → PRes β
  | PRes.ok a, f => f a
  | PRes.err e, _ => PRes.err e
  | PRes.panicked, _ => PRes.panicked

/-- From src/productions.rs: the kind of a chance value. -/
inductive ChanceKind where
  | Set : ChanceKind
  | Derived : ChanceKind
deriving DecidableEq, Repr

/-- From src/productions.rs: a Chance is a kind and an optional value. -/
structure Chance where
  kind : ChanceKind
  chance : Option ℚ
deriving DecidableEq, Repr

/-- From src/productions.rs: Chance.empty, the Derived chance. -/
def Chance.empty : Chance :=
  { kind := ChanceKind.Derived, chance := none }

/-- From src/productions.rs: Chance.is_derived. -/
def Chance.is_derived (c : Chance) : Bool :=
  match c.kind with
  | ChanceKind.Derived => true
  | ChanceKind.Set => false

/-- From src/productions.rs: Chance.unwrap_or. -/
def Chance.unwrap_or (c : Chance) (d : ℚ) : ℚ :=
  c.chance.getD d

/-- From src/productions.rs: Chance.new asserts that the value is in (0, 1];
outside that range the Rust code panics, which the embedding models as none. -/
def chanceNew (c : ℚ) : Option Chance :=
  if 0 < c ∧ c ≤ 1 then some { kind := ChanceKind.Set, chance := some c } else none

/-- A production string is an ordered list of tokens (src/strings.rs). -/
abbrev ProdStr := List Token

/-- From src/productions.rs: a production head with optional contexts. -/
structure ProductionHead where
  pre : Option ProdStr
  target : Token
  post : Option ProdStr
deriving DecidableEq, Repr

/-- Models a Rust slice expression v[a..b]: it panics (none) unless
a ≤ b and b ≤ v.len(). -/
def sliceRange (s : ProdStr) (a b : ℕ) : Option ProdStr :=
  if a ≤ b ∧ b ≤ s.length then some ((s.take b).drop a) else none

/-- The elementwise comparison loop in pre_matches and post_matches: the
context list is compared against the leading elements of the second list. -/
def ctxCompare : ProdStr → ProdStr → Bool
  | [], _ => true
  | _ :: _, [] => false
  | t :: ts, u :: us => decide (t = u) && ctxCompare ts us

/-- From src/productions.rs: ProductionHead.pre_matches. The slice of the
symbols before the index panics (none) when the index exceeds the length. -/
def ProductionHead.pre_matches (h : ProductionHead) (s : ProdStr) (i : ℕ) : Option Bool :=
  match h.pre with
  | none => some true
  | some left =>
    if i = 0 then some left.isEmpty
    else
      (sliceRange s 0 i).map (fun seg =>
        let symbols := seg.reverse
        if symbols.length < left.length then false
        else ctxCompare left.reverse symbols)

/-- From src/productions.rs: ProductionHead.post_matches. On the empty string
the expression string.len() - 1 underflows and the suffix slice is out of
bounds, a panic either way (none); for an index at least the length the
suffix slice panics as well. -/
def ProductionHead.post_matches (h : ProductionHead) (s : ProdStr) (i : ℕ) : Option Bool :=
  match h.post with
  | none => some true
  | some right =>
    if s.length = 0 then none
    else if i = s.length - 1 then some right.isEmpty
    else
      (sliceRange s (i + 1) s.length).map (fun seg =>
        if seg.length < right.length then false
        else ctxCompare right seg)

/-- From src/productions.rs: ProductionHead.matches, with the Rust
short-circuit evaluation order pre && post && target. -/
def ProductionHead.matches (h : ProductionHead) (s : ProdStr) (i : ℕ) : Option Bool :=
  match h.pre_matches s i with
  | none => none
  | some false => some false
  | some true =>
    match h.post_matches s i with
    | none => none
    | some false => some false
    | some true => some (decide (s[i]? = some h.target))

/-- Stated from the specification text: the pre-context condition. At the
first position a specified pre-context matches only if it is empty; otherwise
the context length symbols immediately preceding the index equal the context. -/
def preContextOk (ctx : ProdStr) (s : ProdStr) (i : ℕ) : Bool :=
  if i = 0 then ctx.isEmpty
  else decide (ctx.length ≤ i) && decide ((s.take i).drop (i - ctx.length) = ctx)

/-- Stated from the specification text: the post-context condition. At the
last position a specified post-context matches only if it is empty; otherwise
the context length symbols immediately following the index equal the context. -/
def postContextOk (ctx : ProdStr) (s : ProdStr) (i : ℕ) : Bool :=
  if i = s.length - 1 then ctx.isEmpty
  else decide ((s.drop (i + 1)).take ctx.length = ctx)

/-- Stated from the specification text: the head matches at an index iff the
symbol there equals the target and both optional contexts are satisfied. -/
def specMatches (h : ProductionHead) (s : ProdStr) (i : ℕ) : Bool :=
  decide (s[i]? = some h.target) &&
    (match h.pre with
     | none => true
     | some ctx => preContextOk ctx s i) &&
    (match h.post with
     | none => true
     | some ctx => postContextOk ctx s i)

/-- From src/productions.rs: a production body is a replacement string
tagged with a Chance. -/
structure ProductionBody where
  string : ProdStr
  chance : Chance
deriving DecidableEq, Repr

/-- From src/productions.rs: ProductionBody.empty. -/
def ProductionBody.empty : ProductionBody :=
  { string := [], chance := Chance.empty }

/-- From src/productions.rs: ProductionBody.new, the Derived-chance body. -/
def ProductionBody.new (s : ProdStr) : ProductionBody :=
  { string := s, chance := Chance.empty }

/-- From src/productions.rs: ProductionBody.try_with_chance. The guard
accepts the closed interval [0, 1]; inside it, Chance.new still asserts that
the value is strictly positive, so the value 0 panics. -/
def tryWithChance (c : ℚ) (s : ProdStr) : PRes ProductionBody :=
  if ¬ (0 ≤ c ∧ c ≤ 1) then
    PRes.err { kind := ErrorKind.Parse,
               message := "chance should be between 0.0 and 1.0 inclusive" }
  else
    match chanceNew c with
    | some ch => PRes.ok { string := s, chance := ch }
    | none => PRes.panicked

/-- From src/productions.rs: a production is a head plus a body list. -/
structure Production where
  head : ProductionHead
  body : List ProductionBody
deriving DecidableEq, Repr

/-- From src/productions.rs: Production.new builds a single-body production. -/
def Production.new (h : ProductionHead) (b : ProductionBody) : Production :=
  { head := h, body := [b] }

/-- From src/productions.rs: Production.add_body. -/
def Production.add_body (p : Production) (b : ProductionBody) : Production :=
  { p with body := p.body ++ [b] }

/-- From src/productions.rs: Production.merge appends the bodies of the
other production. -/
def Production.merge (p other : Production) : Production :=
  { p with body := p.body ++ other.body }

/-- The total chance computed in Production::body: the sum over all bodies
of the chance value, an unset chance counting as zero. -/
def totalChance (bodies : List ProductionBody) : ℚ :=
  (bodies.map (fun b => b.chance.unwrap_or 0)).sum

/-- The count of Derived bodies computed in Production::body. -/
def derivedCount (bodies : List ProductionBody) : ℕ :=
  (bodies.filter (fun b => b.chance.is_derived)).length

/-- The selection loop of Production::body: starting from the accumulated
value, add each chance (or the default) in order and return the first body
once the drawn value is strictly below the accumulated value. -/
def selectWalk (rand d : ℚ) : ℚ → List ProductionBody → Option ProductionBody
  | _, [] => none
  | current, b :: rest =>
    let next := current + b.chance.unwrap_or d
    if rand < next then some b else selectWalk rand d next rest

/-- From src/productions.rs: Production::body, the stochastic body selection,
with the drawn random value made an explicit argument. -/
def Production.bodySelect (p : Production) (rand : ℚ) : PRes ProductionBody :=
  match p.body with
  | [] => PRes.err { kind := ErrorKind.Execution, message := "Production has no bodies set" }
  | b :: bs =>
    if bs.isEmpty then PRes.ok b
    else
      let bodies := b :: bs
      let total := totalChance bodies
      if total < 0 then
        PRes.err { kind := ErrorKind.Execution, message := "chance should never be negative" }
      else if 1 < total then
        PRes.err { kind := ErrorKind.Execution,
                   message := "total chance of production bodies should not be greater than 1.0" }
      else
        let remaining := derivedCount bodies
        let d := if remaining = 0 then 0 else (1 - total) / (remaining : ℚ)
        match selectWalk rand d 0 bodies with
        | some chosen => PRes.ok chosen
        | none => PRes.ok (bodies.getLast (List.cons_ne_nil b bs))

/-- A first-index search used by the specification-side selection models. -/
def findFirstIdx {α : Type} (p : α → Bool) : List α → Option ℕ
  | [] => none
  | x :: xs => if p x then some 0 else (findFirstIdx p xs).map (fun j => j + 1)

/-- The effective chance list described by the specification: a Set body
uses its set value, a Derived body the default value. -/
def specEffChances (bodies : List ProductionBody) (d : ℚ) : List ℚ :=
  bodies.map (fun b =>
    match b.chance.kind with
    | ChanceKind.Set => b.chance.chance.getD 0
    | ChanceKind.Derived => d)

/-- The sum of the explicitly Set chances described by the specification. -/
def specSetTotal (bodies : List ProductionBody) : ℚ :=
  (bodies.filterMap (fun b =>
    match b.chance.kind with
    | ChanceKind.Set => b.chance.chance
    | ChanceKind.Derived => none)).sum

/-- The cumulative chance values: entry i is the sum of the first i + 1
effective chances. -/
def specCums (effs : List ℚ) : List ℚ :=
  (List.range effs.length).map (fun i => ((effs.take (i + 1)).sum))

/-- Modelled from the amended claim: with one body return it unconditionally;
otherwise compute the default chance (1 - total) / k for the k Derived bodies
and return the first body whose cumulative chance strictly exceeds the drawn
value, falling back to the last body. -/
def specSelectStrict (p : Production) (rand : ℚ) : Option ProductionBody :=
  if p.body.length = 1 then p.body.head? else
  let total := specSetTotal p.body
  let k := derivedCount p.body
  let d := if 0 < k then (1 - total) / (k : ℚ) else 0
  let cums := specCums (specEffChances p.body d)
  match findFirstIdx (fun c => rand < c) cums with
  | some i => p.body[i]?
  | none => p.body.getLast?

/-- Modelled from the original claim text: identical to the amended model
except that the first body whose cumulative chance meets OR exceeds the
drawn value is selected. -/
def specSelectClaim (p : Production) (rand : ℚ) : Option ProductionBody :=
  if p.body.length = 1 then p.body.head? else
  let total := specSetTotal p.body
  let k := derivedCount p.body
  let d := if 0 < k then (1 - total) / (k : ℚ) else 0
  let cums := specCums (specEffChances p.body d)
  match findFirstIdx (fun c => rand ≤ c) cums with
  | some i => p.body[i]?
  | none => p.body.getLast?

/-- Well-formed chances: in the Rust code a Chance is only ever built by
Chance::new (kind Set, value present) or Chance::empty (kind Derived, value
absent), so the kind determines whether the value is present. -/
def WFChances (bodies : List ProductionBody) : Prop :=
  ∀ b ∈ bodies, (b.chance.kind = ChanceKind.Set ↔ b.chance.chance.isSome)

/-- From src/tokens.rs: TokenKind.is_production. -/
def TokenKind.is_production : TokenKind → Bool
  | TokenKind.Terminal => false
  | TokenKind.Production => true

/-- From src/system.rs: find_matching returns the first production whose head
matches the string at the index; a panic inside matches propagates (none on
the outside), otherwise some of the search result. -/
def findMatching (prods : List Production) (s : ProdStr) (i : ℕ) :
    Option (Option Production) :=
  match prods with
  | [] => some none
  | p :: ps =>
    match p.head.matches s i with
    | none => none
    | some true => some (some p)
    | some false => findMatching ps s i

/-- The body of the derive_once loop in src/system.rs: walk the tokens with
their indices, passing terminals through, splicing in a selected body for the
first matching production, and copying unmatched tokens. -/
def deriveOnceLoop (rands : ℕ → ℚ) (s : ProdStr) (prods : List Production) :
    ℕ → List Token → PRes ProdStr
  | _, [] => PRes.ok []
  | i, t :: rest =>
    if t.is_terminal then
      match deriveOnceLoop rands s prods (i + 1) rest with
      | PRes.ok acc => PRes.ok (t :: acc)
      | e => e
    else
      match findMatching prods s i with
      | none => PRes.panicked
      | some none =>
        match deriveOnceLoop rands s prods (i + 1) rest with
        | PRes.ok acc => PRes.ok (t :: acc)
        | e => e
      | some (some p) =>
        match p.bodySelect (rands i) with
        | PRes.ok b =>
          match deriveOnceLoop rands s prods (i + 1) rest with
          | PRes.ok acc => PRes.ok (b.string ++ acc)
          | e => e
        | PRes.err e => PRes.err e
        | PRes.panicked => PRes.panicked

/-- From src/system.rs: derive_once. The drawn random values become an
explicit argument indexed by position. The final length match in the Rust
code maps an empty result to the empty string, which is the identity. -/
def deriveOnce (rands : ℕ → ℚ) (s : ProdStr) (prods : List Production) : PRes ProdStr :=
  if s.isEmpty then PRes.ok []
  else deriveOnceLoop rands s prods 0 s

/-- From src/system.rs: RunSettings. -/
structure RunSettings where
  max_iterations : ℕ
deriving DecidableEq, Repr

/-- The iteration loop of derive in src/system.rs: the first argument counts
the iterations still to run, the second the index of the current iteration. -/
def deriveIter (rands : ℕ → ℕ → ℚ) (prods : List Production) :
    ℕ → ℕ → ProdStr → PRes ProdStr
  | 0, _, s => PRes.ok s
  | n + 1, k, s =>
    match deriveOnce (rands k) s prods with
    | PRes.ok s2 => deriveIter rands prods n (k + 1) s2
    | e => e

/-- From src/system.rs: derive applies derive_once max_iterations times.
The random values become an argument indexed by iteration and position. -/
def derive (rands : ℕ → ℕ → ℚ) (s : ProdStr) (prods : List Production)
    (settings : RunSettings) : PRes ProdStr :=
  if s.isEmpty then PRes.ok []
  else deriveIter rands prods settings.max_iterations 0 s

/-- Stated from the claim: exactly n sequential applications of derive_once,
iteration k of n drawing its random values from index k, a failure aborting
the remaining iterations. -/
def applyNTimes (rands : ℕ → ℕ → ℚ) (prods : List Production) :
    ℕ → ProdStr → PRes ProdStr
  | 0, s => PRes.ok s
  | n + 1, s =>
    pbind (applyNTimes rands prods n s) (fun s2 => deriveOnce (rands n) s2 prods)

/-- From src/system.rs: the System::add_production store update. The first
production with an equal head absorbs the new bodies by merging; if no head
matches, the production is appended. -/
def addProduction : List Production → Production → List Production
  | [], p => [p]
  | q :: qs, p =>
    if q.head = p.head then q.merge p :: qs
    else q :: addProduction qs p

/-- The production-store invariant: at most one production per distinct head. -/
def distinctHeads (store : List Production) : Prop :=
  store.Pairwise (fun p q => p.head ≠ q.head)

/-- From src/system.rs: the token table and counter of one System instance.
The HashMap is modelled as an association list keyed by name. -/
structure SystemState where
  tokens : List (String × Token)
  token_id : ℕ
deriving DecidableEq, Repr

/-- From src/system.rs: System::new starts the token counter at 100. -/
def SystemState.new : SystemState :=
  { tokens := [], token_id := 100 }

/-- From src/system.rs: System::add_token. An existing name returns its
token unchanged; otherwise a fresh token takes the next counter value. -/
def addToken (σ : SystemState) (name : String) (kind : TokenKind) :
    PRes (Token × SystemState) :=
  if name = "" then
    PRes.err { kind := ErrorKind.General, message := "name should not be an empty string" }
  else
    match σ.tokens.lookup name with
    | some t => PRes.ok (t, σ)
    | none =>
      let t : Token := { kind := kind, code := σ.token_id }
      PRes.ok (t, { tokens := σ.tokens ++ [(name, t)], token_id := σ.token_id + 1 })

/-- A lexical term handed to the parser: one whitespace-separated word of the
rule text. The string-level predicates the Rust code evaluates are carried as
fields: floatVal is the value parsed by str::parse into f32 when that parse
succeeds, firstUpper whether the first character is ASCII uppercase, and
hasBadChar whether the text contains a parenthesis or a space. Terms produced
by split_ascii_whitespace are nonempty and carry no whitespace. -/
structure Term where
  text : String
  floatVal : Option ℚ
  firstUpper : Bool
  hasBadChar : Bool
deriving DecidableEq, Repr

/-- From src/system/parser.rs: determine_kind. A term with a parenthesis or
space, or one that parses as a float, has no kind; a capitalised term is a
Production token and anything else a Terminal token. -/
def determineKind (t : Term) : Option TokenKind :=
  if t.hasBadChar then none
  else
    match t.floatVal with
    | some _ => none
    | none => if t.firstUpper then some TokenKind.Production else some TokenKind.Terminal

/-- The token-collecting loop of parse_production_body in
src/system/parser.rs, for the terms after the optional chance. -/
def parseBodyLoop (σ : SystemState) : List Term → PRes (List Token × SystemState)
  | [] => PRes.ok ([], σ)
  | t :: rest =>
    match determineKind t with
    | none => PRes.err { kind := ErrorKind.Parse, message := "unable to determine token type" }
    | some k =>
      match addToken σ t.text k with
      | PRes.ok (tok, σ2) =>
        match parseBodyLoop σ2 rest with
        | PRes.ok (toks, σ3) => PRes.ok (tok :: toks, σ3)
        | PRes.err e => PRes.err e
        | PRes.panicked => PRes.panicked
      | PRes.err e => PRes.err e
      | PRes.panicked => PRes.panicked

/-- From src/system/parser.rs: parse_production_body. An empty body is the
empty-string body; a first term that parses as a float is consumed as the
explicit chance and handed to try_with_chance at the end. -/
def parseProductionBody (σ : SystemState) (terms : List Term) :
    PRes (ProductionBody × SystemState) :=
  match terms with
  | [] => PRes.ok (ProductionBody.empty, σ)
  | t0 :: rest =>
    match t0.floatVal with
    | some v =>
      match parseBodyLoop σ rest with
      | PRes.ok (toks, σ2) =>
        match tryWithChance v toks with
        | PRes.ok b => PRes.ok (b, σ2)
        | PRes.err e => PRes.err e
        | PRes.panicked => PRes.panicked
      | PRes.err e => PRes.err e
      | PRes.panicked => PRes.panicked
    | none =>
      match parseBodyLoop σ (t0 :: rest) with
      | PRes.ok (toks, σ2) => PRes.ok (ProductionBody.new toks, σ2)
      | PRes.err e => PRes.err e
      | PRes.panicked => PRes.panicked

/-- Models splitn(2, ..) on the term list: the part before the first
occurrence of the separator text, and, when a separator occurs, the part
after it. -/
def splitAtFirst (sep : String) : List Term → List Term × Option (List Term)
  | [] => ([], none)
  | t :: rest =>
    if t.text = sep then ([], some rest)
    else
      let r := splitAtFirst sep rest
      (t :: r.1, r.2)

/-- The add_token loop of parse_head_context: kinds were checked by the
all-known guard, so an unknown kind here is an unwrap panic. -/
def ctxAddLoop (σ : SystemState) : List Term → PRes (List Token × SystemState)
  | [] => PRes.ok ([], σ)
  | t :: rest =>
    match determineKind t with
    | none => PRes.panicked
    | some k =>
      match addToken σ t.text k with
      | PRes.ok (tok, σ2) =>
        match ctxAddLoop σ2 rest with
        | PRes.ok (toks, σ3) => PRes.ok (tok :: toks, σ3)
        | PRes.err e => PRes.err e
        | PRes.panicked => PRes.panicked
      | PRes.err e => PRes.err e
      | PRes.panicked => PRes.panicked

/-- From src/system/parser.rs: parse_head_context on one context fragment. -/
def ctxParse (σ : SystemState) (terms : List Term) : PRes (ProdStr × SystemState) :=
  if terms.all (fun t => (determineKind t).isSome) then ctxAddLoop σ terms
  else PRes.err { kind := ErrorKind.Parse, message := "Unable to parse left context" }

/-- The two successive splitn(2, ..) splits of parse_production_head: the
optional pre-context terms, the candidate centre terms, and the optional
post-context terms. -/
def headSplit (terms : List Term) : Option (List Term) × List Term × Option (List Term) :=
  let s1 := splitAtFirst "<" terms
  let leftTerms : Option (List Term) := if s1.2.isSome then some s1.1 else none
  let remains : List Term := match s1.2 with | some after => after | none => s1.1
  let s2 := splitAtFirst ">" remains
  (leftTerms, s2.1, s2.2)

/-- From src/system/parser.rs: parse_production_head. The head text arrives
already split into whitespace-separated terms; an empty head is an empty term
list. The dynamic part of the capitalisation error message is rebuilt from
the terms. -/
def parseProductionHead (σ : SystemState) (terms : List Term) :
    PRes (ProductionHead × SystemState) :=
  if terms.isEmpty then
    PRes.err { kind := ErrorKind.Parse, message := "no head in production string" }
  else
    let sp := headSplit terms
    let leftTerms : Option (List Term) := sp.1
    let rightTerms : Option (List Term) := sp.2.2
    match sp.2.1 with
    | [center] =>
      let isProd := ((determineKind center).map TokenKind.is_production).getD false
      if ¬ isProd then
        PRes.err { kind := ErrorKind.Parse,
                   message := "production tokens should start with a capitalised letter: "
                     ++ String.intercalate " " (terms.map Term.text) }
      else
        match addToken σ center.text TokenKind.Production with
        | PRes.ok (headTok, σ1) =>
          match leftTerms with
          | none =>
            match rightTerms with
            | none => PRes.ok ({ pre := none, target := headTok, post := none }, σ1)
            | some rts =>
              match ctxParse σ1 rts with
              | PRes.ok (rctx, σ2) =>
                PRes.ok ({ pre := none, target := headTok, post := some rctx }, σ2)
              | PRes.err e => PRes.err e
              | PRes.panicked => PRes.panicked
          | some lts =>
            match ctxParse σ1 lts with
            | PRes.ok (lctx, σ2) =>
              match rightTerms with
              | none => PRes.ok ({ pre := some lctx, target := headTok, post := none }, σ2)
              | some rts =>
                match ctxParse σ2 rts with
                | PRes.ok (rctx, σ3) =>
                  PRes.ok ({ pre := some lctx, target := headTok, post := some rctx }, σ3)
                | PRes.err e => PRes.err e
                | PRes.panicked => PRes.panicked
            | PRes.err e => PRes.err e
            | PRes.panicked => PRes.panicked
        | PRes.err e => PRes.err e
        | PRes.panicked => PRes.panicked
    | _ =>
      PRes.err { kind := ErrorKind.Parse,
                 message := "There should be exactly one token as the head target" }

/-- Extracts the interned token code from an add_token result. -/
def tokenCodeOf (r : PRes (Token × SystemState)) : Option ℕ :=
  match r with
  | PRes.ok (t, _) => some t.code
  | _ => none

/-- Whether a result is the Ok outcome. -/
def PRes.isOk {α : Type} : PRes α → Bool
  | PRes.ok _ => true
  | _ => false

/-- The token the System interner assigns to the name Forward. -/
def tokForward : Token :=
  { kind := TokenKind.Production, code := 100 }

/-- The production parsed from the rule text Forward -> Forward Forward. -/
def prodForward : Production :=
  { head := { pre := none, target := tokForward, post := none },
    body := [{ string := [tokForward, tokForward], chance := Chance.empty }] }

/-- The token for S in the context-matching scenario (interned first, as the
head target of the rule G < S -> S G). -/
def tokS : Token :=
  { kind := TokenKind.Production, code := 100 }

/-- The token for G in the context-matching scenario. -/
def tokG : Token :=
  { kind := TokenKind.Production, code := 101 }

/-- The token for X in the context-matching scenario. -/
def tokX : Token :=
  { kind := TokenKind.Production, code := 102 }

/-- The production parsed from the rule text G < S -> S G. -/
def prodGS : Production :=
  { head := { pre := some [tokG], target := tokS, post := none },
    body := [{ string := [tokS, tokG], chance := Chance.empty }] }

/-- The sequence parsed from G S S S X. -/
def strGSSSX : ProdStr :=
  [tokG, tokS, tokS, tokS, tokX]

/-- A body with explicit chance one half and replacement a. -/
def bodyHalfA : ProductionBody :=
  { string := [{ kind := TokenKind.Terminal, code := 200 }],
    chance := { kind := ChanceKind.Set, chance := some (1/2) } }

/-- A body with explicit chance one half and replacement b. -/
def bodyHalfB : ProductionBody :=
  { string := [{ kind := TokenKind.Terminal, code := 201 }],
    chance := { kind := ChanceKind.Set, chance := some (1/2) } }

/-- A two-body production with explicit chances one half and one half. -/
def prodHalves : Production :=
  { head := { pre := none, target := tokS, post := none },
    body := [bodyHalfA, bodyHalfB] }

/-- A two-body production whose explicit chances sum to more than one. -/
def prodOverOne : Production :=
  { head := { pre := none, target := tokS, post := none },
    body := [{ string := [], chance := { kind := ChanceKind.Set, chance := some (3/5) } },
             { string := [], chance := { kind := ChanceKind.Set, chance := some (3/5) } }] }

/-- The term 0.0, which str::parse accepts as the float zero. -/
def termZero : Term :=
  { text := "0.0", floatVal := some 0, firstUpper := false, hasBadChar := false }

/-- The term 2.0, which str::parse accepts as a float above one. -/
def termBig : Term :=
  { text := "2.0", floatVal := some 2, firstUpper := false, hasBadChar := false }

/-- The term A: capitalised, not a float. -/
def termA : Term :=
  { text := "A", floatVal := none, firstUpper := true, hasBadChar := false }

/-- The context separator term. -/
def termGt : Term :=
  { text := ">", floatVal := none, firstUpper := false, hasBadChar := false }

/-- The term b: lower case, not a float. -/
def termB : Term :=
  { text := "b", floatVal := none, firstUpper := false, hasBadChar := false }

/-- The term c: lower case, not a float. -/
def termC : Term :=
  { text := "c", floatVal := none, firstUpper := false, hasBadChar := false }

/-- A head with no contexts, used for the totality statements. -/
def headPlain : ProductionHead :=
  { pre := none, target := tokS, post := none }

/-- A head with a one-symbol post-context, used for the panic cases. -/
def headPostOnly : ProductionHead :=
  { pre := none, target := tokS, post := some [{ kind := TokenKind.Terminal, code := 205 }] }

/-- The error returned for an over-unity chance total. -/
def errOverTotal : RError :=
  { kind := ErrorKind.Execution,
    message := "total chance of production bodies should not be greater than 1.0" }

/-- The error returned by try_with_chance for an out-of-range chance. -/
def errChanceRange : RError :=
  { kind := ErrorKind.Parse,
    message := "chance should be between 0.0 and 1.0 inclusive" }

theorem ctxCompare_iff (a b : ProdStr) : ctxCompare a b = true ↔ b.take a.length = a := by
  induction a generalizing b with
  | nil => simp [ctxCompare]
  | cons x xs ih =>
    cases b with
    | nil => simp [ctxCompare]
    | cons y ys =>
      simp only [ctxCompare, Bool.and_eq_true, decide_eq_true_eq, List.length_cons,
        List.take_succ_cons, List.cons.injEq, ih]
      constructor
      · rintro ⟨hxy, hys⟩
        exact ⟨hxy.symm, hys⟩
      · rintro ⟨hxy, hys⟩
        exact ⟨hxy.symm, hys⟩

theorem pre_matches_in_bounds (h : ProductionHead) (s : ProdStr) (i : ℕ)
    (hi : i ≤ s.length) :
    h.pre_matches s i =
      some (match h.pre with
            | none => true
            | some ctx => preContextOk ctx s i) := by
  cases hpre : h.pre with
  | none => simp [ProductionHead.pre_matches, hpre]
  | some ctx =>
    by_cases hz : i = 0
    · simp [ProductionHead.pre_matches, hpre, hz, preContextOk]
    · have hslice : sliceRange s 0 i = some (s.take i) := by
        simp [sliceRange, hi]
      simp only [ProductionHead.pre_matches, hpre, if_neg hz, hslice, Option.map_some']
      congr 1
      have hlen : (s.take i).reverse.length = i := by
        simp [List.length_take_of_le hi]
      by_cases hlt : i < ctx.length
      · rw [preContextOk, if_neg hz, hlen]
        rw [if_pos]
        · have : ¬ ctx.length ≤ i := by omega
          simp [this]
        · simpa [hlen] using hlt
      · have hge : ctx.length ≤ i := by omega
        rw [preContextOk, if_neg hz, hlen, if_neg (by omega)]
        apply Bool.coe_iff_coe.mp
        rw [ctxCompare_iff]
        have hrev : (s.take i).reverse.take ctx.reverse.length
            = ((s.take i).drop (i - ctx.length)).reverse := by
          rw [List.length_reverse, List.take_reverse, List.length_take_of_le hi]
        rw [hrev]
        simp only [decide_eq_true_eq, Bool.and_eq_true, List.reverse_inj]
        constructor
        · intro hx
          exact ⟨hge, hx⟩
        · intro hx
          exact hx.2

theorem post_matches_in_bounds (h : ProductionHead) (s : ProdStr) (i : ℕ)
    (hi : i < s.length) :
    h.post_matches s i =
      some (match h.post with
            | none => true
            | some ctx => postContextOk ctx s i) := by
  cases hpost : h.post with
  | none => simp [ProductionHead.post_matches, hpost]
  | some ctx =>
    have hnz : s.length ≠ 0 := by omega
    by_cases hlast : i = s.length - 1
    · simp [ProductionHead.post_matches, hpost, hnz, hlast, postContextOk]
    · have hle : i + 1 ≤ s.length := hi
      have hslice : sliceRange s (i + 1) s.length = some (s.drop (i + 1)) := by
        simp [sliceRange, hle, List.take_length]
      simp only [ProductionHead.post_matches, hpost, if_neg hnz, if_neg hlast, hslice,
        Option.map_some']
      congr 1
      rw [postContextOk, if_neg hlast]
      by_cases hlt : (s.drop (i + 1)).length < ctx.length
      · rw [if_pos hlt]
        have hne : (s.drop (i + 1)).take ctx.length ≠ ctx := by
          intro heq
          have := congrArg List.length heq
          simp only [List.length_take] at this
          omega
        simp [hne]
      · rw [if_neg hlt]
        apply Bool.coe_iff_coe.mp
        rw [ctxCompare_iff]
        simp

theorem matches_some_true_iff (h : ProductionHead) (s : ProdStr) (i : ℕ) :
    h.matches s i = some true ↔ specMatches h s i = true := by
  by_cases htar : s[i]? = some h.target
  · have hi : i < s.length := by
      rw [List.getElem?_eq_some] at htar
      exact htar.1
    rw [ProductionHead.matches, pre_matches_in_bounds h s i (le_of_lt hi),
      post_matches_in_bounds h s i hi]
    rw [specMatches]
    cases hpre : h.pre with
    | none =>
      cases hpost : h.post with
      | none => simp [htar]
      | some ctx => cases hb : postContextOk ctx s i <;> simp [htar, hb]
    | some ctx =>
      cases hb : preContextOk ctx s i with
      | false => simp [htar, hb]
      | true =>
        cases hpost : h.post with
        | none => simp [htar, hb]
        | some ctx2 => cases hb2 : postContextOk ctx2 s i <;> simp [htar, hb, hb2]
  · constructor
    · intro hmat
      exfalso
      rw [ProductionHead.matches] at hmat
      rcases hp : h.pre_matches s i with _ | b
      · rw [hp] at hmat
        exact Option.noConfusion hmat
      · rw [hp] at hmat
        cases b with
        | false => simp at hmat
        | true =>
          rcases hq : h.post_matches s i with _ | b2
          · rw [hq] at hmat
            exact Option.noConfusion hmat
          · rw [hq] at hmat
            cases b2 with
            | false => simp at hmat
            | true =>
              simp only [Option.some.injEq, decide_eq_true_eq] at hmat
              exact htar hmat
    · intro hspec
      exfalso
      rw [specMatches] at hspec
      simp only [Bool.and_eq_true, decide_eq_true_eq] at hspec
      exact htar hspec.1.1

theorem matches_isSome_of_lt (h : ProductionHead) (s : ProdStr) (i : ℕ)
    (hi : i < s.length) : (h.matches s i).isSome = true := by
  have hp := pre_matches_in_bounds h s i (le_of_lt hi)
  have hq := post_matches_in_bounds h s i hi
  cases hb1 : (match h.pre with | none => true | some ctx => preContextOk ctx s i) with
  | false =>
    rw [hb1] at hp
    simp [ProductionHead.matches, hp]
  | true =>
    rw [hb1] at hp
    cases hb2 : (match h.post with | none => true | some ctx => postContextOk ctx s i) with
    | false =>
      rw [hb2] at hq
      simp [ProductionHead.matches, hp, hq]
    | true =>
      rw [hb2] at hq
      simp [ProductionHead.matches, hp, hq]

theorem matches_no_context (h : ProductionHead) (s : ProdStr) (i : ℕ)
    (hpre : h.pre = none) (hpost : h.post = none) :
    h.matches s i = some (decide (s[i]? = some h.target)) := by
  simp [ProductionHead.matches, ProductionHead.pre_matches, ProductionHead.post_matches,
    hpre, hpost]

/-- C2: for every head, sequence and index, matches returns true exactly when
the symbol at the index equals the target, the optional pre-context equals
the symbols immediately preceding the index, and the optional post-context
equals the symbols immediately following it, with the boundary rule that at
the first (resp. last) position a specified pre-context (resp. post-context)
matches only when empty. -/
theorem claim_C2 (h : ProductionHead) (s : ProdStr) (i : ℕ) :
    h.matches s i = some true ↔ specMatches h s i = true :=
  matches_some_true_iff h s i

/-- Witness for C2 at a concrete head, sequence and index. -/
theorem claim_C2_witness : specMatches prodGS.head strGSSSX 1 = true :=
  (claim_C2 prodGS.head strGSSSX 1).mp (by decide)

/-- C10 (amended): matches never panics and returns false out of bounds for
heads without contexts, and never panics at any in-bounds index; with a
context, an out-of-bounds index can panic (see the counterexample). -/
theorem claim_C10 :
    (∀ (h : ProductionHead) (s : ProdStr) (i : ℕ), i < s.length →
        (h.matches s i).isSome = true) ∧
    (∀ (h : ProductionHead) (s : ProdStr) (i : ℕ), h.pre = none → h.post = none →
        h.matches s i = some (decide (s[i]? = some h.target)) ∧
          (s.length ≤ i → h.matches s i = some false)) := by
  constructor
  · intro h s i hi
    exact matches_isSome_of_lt h s i hi
  · intro h s i hpre hpost
    refine ⟨matches_no_context h s i hpre hpost, ?_⟩
    intro hle
    rw [matches_no_context h s i hpre hpost]
    have hnone : s[i]? = none := List.getElem?_eq_none_iff.mpr hle
    simp [hnone]

/-- Witness for C10 at a concrete head, string and indices. -/
theorem claim_C10_witness :
    (headPlain.matches [tokS] 0).isSome = true ∧ headPlain.matches [tokS] 3 = some false :=
  ⟨claim_C10.1 headPlain [tokS] 0 (by decide),
   (claim_C10.2 headPlain [tokS] 3 rfl rfl).2 (by decide)⟩

/-- C10 counterexample: with a post-context, matches at an index beyond the
end of the string hits an out-of-bounds slice and panics instead of
returning false. -/
theorem claim_C10_cex : headPostOnly.matches [tokS] 1 = none := by decide

theorem specCums_cons (e : ℚ) (es : List ℚ) :
    specCums (e :: es) = e :: (specCums es).map (fun c => e + c) := by
  rw [specCums, List.length_cons, List.range_succ_eq_map, List.map_cons, List.map_map]
  congr 1
  · simp
  · rw [specCums, List.map_map]
    apply List.map_eq_map_iff.mpr
    intro i _
    simp [Function.comp, List.take_succ_cons]

theorem specCums_length (effs : List ℚ) : (specCums effs).length = effs.length := by
  simp [specCums]

theorem findFirstIdx_map {α β : Type} (g : α → β) (p : β → Bool) (l : List α) :
    findFirstIdx p (l.map g) = findFirstIdx (fun a => p (g a)) l := by
  induction l with
  | nil => rfl
  | cons x xs ih => by_cases hp : p (g x) <;> simp [findFirstIdx, hp, ih]

theorem findFirstIdx_lt_length {α : Type} (p : α → Bool) (l : List α) (i : ℕ)
    (hfi : findFirstIdx p l = some i) : i < l.length := by
  induction l generalizing i with
  | nil => exact Option.noConfusion hfi
  | cons x xs ih =>
    by_cases hp : p x
    · simp only [findFirstIdx, if_pos hp, Option.some.injEq] at hfi
      simp only [List.length_cons]
      omega
    · simp only [findFirstIdx, if_neg hp, Option.map_eq_some'] at hfi
      obtain ⟨j, hj, rfl⟩ := hfi
      have := ih j hj
      simp only [List.length_cons]
      omega

theorem selectWalk_eq_find (rand d : ℚ) (bodies : List ProductionBody) : ∀ (c0 : ℚ),
    selectWalk rand d c0 bodies =
      (findFirstIdx (fun c => rand < c0 + c)
        (specCums (bodies.map (fun b => b.chance.unwrap_or d)))).bind
        (fun i => bodies[i]?) := by
  induction bodies with
  | nil =>
    intro c0
    simp [selectWalk, specCums, findFirstIdx]
  | cons b bs ih =>
    intro c0
    rw [List.map_cons, specCums_cons]
    by_cases hlt : rand < c0 + b.chance.unwrap_or d
    · simp [selectWalk, findFirstIdx, hlt]
    · simp only [selectWalk]
      rw [if_neg hlt, ih (c0 + b.chance.unwrap_or d)]
      simp only [findFirstIdx]
      rw [if_neg (by simpa using hlt), findFirstIdx_map]
      have hpred : (fun c => decide (rand < c0 + (b.chance.unwrap_or d + c)))
          = (fun c => decide (rand < c0 + b.chance.unwrap_or d + c)) := by
        funext c
        rw [← add_assoc]
      rw [hpred]
      cases hX : findFirstIdx (fun c => decide (rand < c0 + b.chance.unwrap_or d + c))
          (specCums (bs.map (fun x => x.chance.unwrap_or d))) with
      | none => simp
      | some j => simp

theorem totalChance_eq_spec (bodies : List ProductionBody) (hwf : WFChances bodies) :
    totalChance bodies = specSetTotal bodies := by
  induction bodies with
  | nil => simp [totalChance, specSetTotal]
  | cons b bs ih =>
    have hb := hwf b (List.mem_cons_self b bs)
    have hbs : WFChances bs := fun x hx => hwf x (List.mem_cons_of_mem b hx)
    have ih2 : (bs.map (fun x => x.chance.chance.getD 0)).sum
        = (bs.filterMap (fun x =>
            match x.chance.kind with
            | ChanceKind.Set => x.chance.chance
            | ChanceKind.Derived => none)).sum := by
      have h3 := ih hbs
      rw [totalChance, specSetTotal] at h3
      simpa [Chance.unwrap_or] using h3
    rw [totalChance, List.map_cons, List.sum_cons, specSetTotal, List.filterMap_cons]
    cases hk : b.chance.kind with
    | Set =>
      obtain ⟨v, hv⟩ := Option.isSome_iff_exists.mp (hb.mp hk)
      simp only [hk, hv, Chance.unwrap_or, Option.getD_some, List.sum_cons]
      rw [ih2]
    | Derived =>
      have hnone : b.chance.chance = none := Option.not_isSome_iff_eq_none.mp (fun hs => by
        have h2 := hb.mpr hs
        rw [hk] at h2
        exact ChanceKind.noConfusion h2)
      simp only [hk, hnone, Chance.unwrap_or, Option.getD_none, zero_add]
      rw [ih2]

theorem effChances_eq_spec (bodies : List ProductionBody) (d : ℚ) (hwf : WFChances bodies) :
    bodies.map (fun b => b.chance.unwrap_or d) = specEffChances bodies d := by
  induction bodies with
  | nil => simp [specEffChances]
  | cons b bs ih =>
    have hb := hwf b (List.mem_cons_self b bs)
    have hbs : WFChances bs := fun x hx => hwf x (List.mem_cons_of_mem b hx)
    rw [List.map_cons, specEffChances, List.map_cons]
    have ih2 := ih hbs
    rw [specEffChances] at ih2
    rw [ih2]
    congr 1
    cases hk : b.chance.kind with
    | Set =>
      obtain ⟨v, hv⟩ := Option.isSome_iff_exists.mp (hb.mp hk)
      simp [Chance.unwrap_or, hv]
    | Derived =>
      have hnot : ¬ b.chance.chance.isSome = true := by
        intro hs
        have := hb.mpr hs
        rw [hk] at this
        exact ChanceKind.noConfusion this
      have hnone : b.chance.chance = none := Option.not_isSome_iff_eq_none.mp hnot
      simp [Chance.unwrap_or, hnone]

/-- C1 (amended): body selection with a single body returns it
unconditionally; otherwise, with the sum of the Set chances at most one, the
Derived bodies share the leftover mass (1 - total) / k equally, the bodies
are walked in registration order accumulating their effective chances, the
first body whose cumulative value STRICTLY exceeds the drawn value is
returned, and if no cumulative value exceeds the drawn value the last body is
the fallback; the equality case goes to a later body, not the first one whose
cumulative value meets the drawn value, and the drawn value ranges over the
closed interval from zero to one. -/
theorem claim_C1 (p : Production) (rand : ℚ) (hne : p.body ≠ [])
    (hwf : WFChances p.body) (h0 : 0 ≤ totalChance p.body)
    (h1 : totalChance p.body ≤ 1) :
    ∃ chosen, specSelectStrict p rand = some chosen ∧
      p.bodySelect rand = PRes.ok chosen := by
  obtain ⟨hd, pbody⟩ := p
  cases pbody with
  | nil => exact absurd rfl hne
  | cons b bs =>
    cases bs with
    | nil =>
      exact ⟨b, by simp [specSelectStrict], by simp [Production.bodySelect]⟩
    | cons b2 bs2 =>
      have hwf2 : WFChances (b :: b2 :: bs2) := hwf
      have h02 : 0 ≤ totalChance (b :: b2 :: bs2) := h0
      have h12 : totalChance (b :: b2 :: bs2) ≤ 1 := h1
      have hnlt0 : ¬ (totalChance (b :: b2 :: bs2) < 0) := not_lt.mpr h02
      have hnlt1 : ¬ (1 < totalChance (b :: b2 :: bs2)) := not_lt.mpr h12
      have hlen1 : ¬ ((b :: b2 :: bs2).length = 1) := by simp
      have hdeq : (if derivedCount (b :: b2 :: bs2) = 0 then (0:ℚ)
            else (1 - totalChance (b :: b2 :: bs2)) / (derivedCount (b :: b2 :: bs2) : ℚ))
          = (if 0 < derivedCount (b :: b2 :: bs2) then
              (1 - specSetTotal (b :: b2 :: bs2)) / (derivedCount (b :: b2 :: bs2) : ℚ)
            else 0) := by
        rw [totalChance_eq_spec _ hwf2]
        by_cases hk0 : derivedCount (b :: b2 :: bs2) = 0
        · simp [hk0]
        · rw [if_neg hk0, if_pos (Nat.pos_of_ne_zero hk0)]
      have hzero : (fun c => decide (rand < 0 + c)) = (fun c => decide (rand < c)) := by
        funext c
        rw [zero_add]
      simp only [Production.bodySelect, specSelectStrict, List.isEmpty_cons,
        Bool.false_eq_true, if_false, if_neg hnlt0, if_neg hnlt1, if_neg hlen1]
      rw [selectWalk_eq_find rand _ (b :: b2 :: bs2) 0, hzero,
        effChances_eq_spec _ _ hwf2, hdeq]
      cases hfind : findFirstIdx (fun c => decide (rand < c))
          (specCums (specEffChances (b :: b2 :: bs2)
            (if 0 < derivedCount (b :: b2 :: bs2) then
              (1 - specSetTotal (b :: b2 :: bs2)) / (derivedCount (b :: b2 :: bs2) : ℚ)
            else 0))) with
      | none =>
        refine ⟨(b :: b2 :: bs2).getLast (List.cons_ne_nil b (b2 :: bs2)), ?_, ?_⟩
        · exact List.getLast?_eq_getLast _ _
        · simp
      | some i =>
        have hi : i < (b :: b2 :: bs2).length := by
          have hlt := findFirstIdx_lt_length _ _ _ hfind
          rwa [specCums_length, specEffChances, List.length_map] at hlt
        refine ⟨(b :: b2 :: bs2)[i], ?_, ?_⟩
        · exact (List.getElem?_eq_some_getElem_iff _ i hi).mpr trivial
        · rw [Option.some_bind, (List.getElem?_eq_some_getElem_iff _ i hi).mpr trivial]

/-- Witness for C1 at the two-body production with explicit one-half chances
and drawn value one quarter. -/
theorem claim_C1_witness :
    ∃ chosen, specSelectStrict prodHalves (1/4) = some chosen ∧
      prodHalves.bodySelect (1/4) = PRes.ok chosen :=
  claim_C1 prodHalves (1/4) (by simp [prodHalves])
    (by simp [WFChances, prodHalves, bodyHalfA, bodyHalfB])
    (by norm_num [totalChance, prodHalves, bodyHalfA, bodyHalfB, Chance.unwrap_or])
    (by norm_num [totalChance, prodHalves, bodyHalfA, bodyHalfB, Chance.unwrap_or])

/-- C6 (amended): with more than one body and the explicitly Set chances
summing to more than one, body selection fails with a recoverable error of
kind Execution (not Definitions). -/
theorem claim_C6 (p : Production) (rand : ℚ) (hlen : 1 < p.body.length)
    (hover : 1 < totalChance p.body) :
    p.bodySelect rand = PRes.err errOverTotal := by
  obtain ⟨hd, pbody⟩ := p
  cases pbody with
  | nil => simp at hlen
  | cons b bs =>
    cases bs with
    | nil => simp at hlen
    | cons b2 bs2 =>
      have hover2 : 1 < totalChance (b :: b2 :: bs2) := hover
      have hnlt0 : ¬ (totalChance (b :: b2 :: bs2) < 0) := by
        intro hcon
        have : (1:ℚ) < 0 := lt_trans hover2 hcon
        norm_num at this
      simp only [Production.bodySelect, List.isEmpty_cons, Bool.false_eq_true, if_false,
        if_neg hnlt0, if_pos hover2]
      rfl

/-- Witness for C6 at the production whose chances sum to six fifths. -/
theorem claim_C6_witness : prodOverOne.bodySelect (1/2) = PRes.err errOverTotal :=
  claim_C6 prodOverOne (1/2) (by norm_num [prodOverOne])
    (by norm_num [totalChance, prodOverOne, Chance.unwrap_or])

/-- C1 counterexample: with two explicit one-half chances and the drawn value
one half, the code skips the first body, whose cumulative chance meets the
drawn value exactly, and returns the second body; the claimed
meets-or-exceeds rule selects the first. -/
theorem claim_C1_cex :
    prodHalves.bodySelect (1/2) = PRes.ok bodyHalfB ∧
    specSelectClaim prodHalves (1/2) = some bodyHalfA ∧
    bodyHalfA ≠ bodyHalfB := by
  refine ⟨?_, ?_, by decide⟩
  · norm_num [Production.bodySelect, prodHalves, bodyHalfA, bodyHalfB, totalChance,
      derivedCount, Chance.unwrap_or, Chance.is_derived, selectWalk]
  · norm_num [specSelectClaim, prodHalves, bodyHalfA, bodyHalfB, specSetTotal,
      derivedCount, specEffChances, specCums, findFirstIdx, Chance.is_derived,
      List.range_succ]

/-- C6 counterexample: when the explicit chances sum to more than one, body
selection fails with an error of kind Execution, not Definitions. -/
theorem claim_C6_cex :
    prodOverOne.bodySelect (1/2) = PRes.err errOverTotal ∧
    ErrorKind.Execution ≠ ErrorKind.Definitions := by
  refine ⟨?_, by decide⟩
  norm_num [Production.bodySelect, prodOverOne, totalChance, Chance.unwrap_or,
    errOverTotal]

/-- C5 counterexample: two fresh System instances intern the name x; the one
that first interned another name assigns x the code 101 while the other
assigns 100, so identical names do not resolve to identical codes across
instances. -/
theorem claim_C5_cex :
    tokenCodeOf (pbind (addToken SystemState.new "y" TokenKind.Terminal)
      (fun p => addToken p.2 "x" TokenKind.Terminal)) = some 101 ∧
    tokenCodeOf (addToken SystemState.new "x" TokenKind.Terminal) = some 100 := by decide

/-- C7: the body 2.0 A is rejected with a recoverable Parse error as claimed,
but the body 0.0 A panics: the chance 0.0 passes the inclusive range guard of
try_with_chance and then fails the strict positivity assertion in
Chance::new, aborting the process instead of returning a Parse error. -/
theorem claim_C7 :
    parseProductionBody SystemState.new [termZero, termA] = PRes.panicked ∧
    parseProductionBody SystemState.new [termBig, termA] = PRes.err errChanceRange := by
  decide

/-- C9 counterexample: the head A > b > c contains the separator > twice, yet
parse_production_head accepts it: the split happens at the first occurrence
and the second > is absorbed into the post-context as an ordinary symbol. -/
theorem claim_C9_cex :
    (([termA, termGt, termB, termGt, termC].filter (fun t => t.text == ">")).length = 2) ∧
    (parseProductionHead SystemState.new [termA, termGt, termB, termGt, termC]).isOk
      = true := by decide

theorem pbind_ok_fun {α : Type} (x : PRes α) : pbind x PRes.ok = x := by
  cases x <;> rfl

theorem pbind_assoc {α β γ : Type} (x : PRes α) (f : α → PRes β) (g : β → PRes γ) :
    pbind (pbind x f) g = pbind x (fun a => pbind (f a) g) := by
  cases x <;> rfl

theorem applyNTimes_peel (rands : ℕ → ℕ → ℚ) (prods : List Production) :
    ∀ (n : ℕ) (s : ProdStr),
    applyNTimes rands prods (n + 1) s
      = pbind (deriveOnce (rands 0) s prods)
          (applyNTimes (fun j => rands (j + 1)) prods n) := by
  intro n
  induction n with
  | zero =>
    intro s
    cases hD : deriveOnce (rands 0) s prods <;> simp [applyNTimes, pbind, hD]
  | succ m ih =>
    intro s
    show pbind (applyNTimes rands prods (m + 1) s) _ = _
    rw [ih s, pbind_assoc]
    congr 1

theorem deriveIter_eq_applyNTimes (rands : ℕ → ℕ → ℚ) (prods : List Production) :
    ∀ (n k : ℕ) (s : ProdStr),
    deriveIter rands prods n k s = applyNTimes (fun j => rands (k + j)) prods n s := by
  intro n
  induction n with
  | zero => intro k s; rfl
  | succ m ih =>
    intro k s
    rw [applyNTimes_peel]
    have h0 : rands (k + 0) = rands k := by rw [Nat.add_zero]
    have hsh : (fun j => rands (k + (j + 1))) = (fun j => rands (k + 1 + j)) := by
      funext j
      have harith : k + (j + 1) = k + 1 + j := by omega
      rw [harith]
    rw [h0, hsh]
    simp only [deriveIter]
    cases hD : deriveOnce (rands k) s prods with
    | ok s2 => exact ih (k + 1) s2
    | err e => rfl
    | panicked => rfl

theorem applyNTimes_err_mono (rands : ℕ → ℕ → ℚ) (prods : List Production)
    (s : ProdStr) (e : RError) :
    ∀ (n k : ℕ), k ≤ n → applyNTimes rands prods k s = PRes.err e →
      applyNTimes rands prods n s = PRes.err e := by
  intro n
  induction n with
  | zero =>
    intro k hk h
    rw [Nat.le_zero.mp hk] at h
    exact h
  | succ m ih =>
    intro k hk h
    rcases Nat.lt_succ_iff_lt_or_eq.mp (Nat.lt_succ_of_le hk) with hlt | heq
    · have h2 := ih k (Nat.lt_succ_iff.mp hlt) h
      show pbind (applyNTimes rands prods m s) _ = _
      rw [h2]
      rfl
    · rw [← heq]
      exact h

/-- C3: for a nonempty input, derive performs exactly max_iterations
sequential applications of derive_once (an unchanging sequence is not a
stopping condition), an error in any iteration aborts the remaining ones, and
in particular the grammar Forward -> Forward Forward turns the length-one
axiom Forward into eight copies of Forward after three iterations. -/
theorem claim_C3 (rands : ℕ → ℕ → ℚ) (prods : List Production) (n : ℕ) (s : ProdStr)
    (hs : s ≠ []) :
    derive rands s prods ⟨n⟩ = applyNTimes rands prods n s ∧
    (∀ (k : ℕ) (e : RError), k ≤ n → applyNTimes rands prods k s = PRes.err e →
      derive rands s prods ⟨n⟩ = PRes.err e) ∧
    derive (fun _ _ => (1:ℚ)/2) [tokForward] [prodForward] ⟨3⟩
      = PRes.ok (List.replicate 8 tokForward) := by
  have hmain : derive rands s prods ⟨n⟩ = applyNTimes rands prods n s := by
    have hemp : s.isEmpty = false := by
      cases s with
      | nil => exact absurd rfl hs
      | cons a as => rfl
    rw [derive, hemp]
    show deriveIter rands prods n 0 s = _
    rw [deriveIter_eq_applyNTimes]
    have : (fun j => rands (0 + j)) = rands := by
      funext j
      rw [Nat.zero_add]
    rw [this]
  refine ⟨hmain, ?_, by decide⟩
  intro k e hk habort
  rw [hmain]
  exact applyNTimes_err_mono rands prods s e n k hk habort

/-- Witness for C3 at the Forward grammar with three iterations. -/
theorem claim_C3_witness :
    derive (fun _ _ => (1:ℚ)/2) [tokForward] [prodForward] ⟨3⟩
      = applyNTimes (fun _ _ => (1:ℚ)/2) [prodForward] 3 [tokForward] :=
  (claim_C3 (fun _ _ => (1:ℚ)/2) [prodForward] 3 [tokForward] (by decide)).1

/-- C8 counterexample: one derivation of G S S S X under the single rule
G < S -> S G yields G S G S S X (the replacement happens at index 1 and the
context symbol G passes through), not the claimed S G S S X. -/
theorem claim_C8_cex :
    deriveOnce (fun _ => (1 : ℚ)/2) strGSSSX [prodGS]
      = PRes.ok [tokG, tokS, tokG, tokS, tokS, tokX] ∧
    ([tokG, tokS, tokG, tokS, tokS, tokX] : ProdStr) ≠ [tokS, tokG, tokS, tokS, tokX] := by
  decide

theorem mem_addProduction_head (qs : List Production) (p r : Production)
    (hr : r ∈ addProduction qs p) :
    r.head ∈ qs.map Production.head ∨ r.head = p.head := by
  induction qs with
  | nil =>
    simp only [addProduction, List.mem_singleton] at hr
    right
    rw [hr]
  | cons q qt ih =>
    by_cases hq : q.head = p.head
    · rw [addProduction, if_pos hq] at hr
      rcases List.mem_cons.mp hr with h1 | h2
      · left
        simp [h1, Production.merge]
      · left
        simp only [List.map_cons, List.mem_cons]
        right
        exact List.mem_map.mpr ⟨r, h2, rfl⟩
    · rw [addProduction, if_neg hq] at hr
      rcases List.mem_cons.mp hr with h1 | h2
      · left
        simp [h1]
      · rcases ih h2 with ha | hb
        · left
          simp only [List.map_cons, List.mem_cons]
          right
          exact ha
        · right
          exact hb

theorem distinctHeads_addProduction (store : List Production) (p : Production)
    (hd : distinctHeads store) : distinctHeads (addProduction store p) := by
  induction store with
  | nil =>
    simp [addProduction, distinctHeads]
  | cons q qt ih =>
    rw [distinctHeads, List.pairwise_cons] at hd
    obtain ⟨hq, hqt⟩ := hd
    by_cases hqp : q.head = p.head
    · rw [addProduction, if_pos hqp, distinctHeads, List.pairwise_cons]
      refine ⟨?_, hqt⟩
      intro r hr
      have h2 := hq r hr
      simpa [Production.merge] using h2
    · rw [addProduction, if_neg hqp, distinctHeads, List.pairwise_cons]
      refine ⟨?_, ih hqt⟩
      intro r hr
      rcases mem_addProduction_head qt p r hr with hmem | heq
      · rcases List.mem_map.mp hmem with ⟨r2, hr2, hr2head⟩
        rw [← hr2head]
        exact hq r2 hr2
      · rw [heq]
        exact hqp

theorem foldl_distinctHeads (ps : List Production) :
    ∀ acc, distinctHeads acc → distinctHeads (ps.foldl addProduction acc) := by
  induction ps with
  | nil =>
    intro acc h
    exact h
  | cons p pt ih =>
    intro acc h
    exact ih _ (distinctHeads_addProduction acc p h)

theorem addProduction_merge_law (store : List Production) (H : ProductionHead)
    (b1 b2 : ProductionBody) :
    addProduction (addProduction store (Production.new H b1)) (Production.new H b2)
      = addProduction store { head := H, body := [b1, b2] } := by
  induction store with
  | nil =>
    simp [addProduction, Production.new, Production.merge]
  | cons q qt ih =>
    by_cases hq : q.head = H
    · simp [addProduction, Production.new, Production.merge, hq]
    · simp only [Production.new] at ih
      simp [addProduction, Production.new, hq, ih]

/-- C4: starting from the empty store, any sequence of add_production calls
leaves at most one production per distinct head, and registering a head with
body b1 and then again with body b2 produces exactly the store produced by a
single registration of that head with bodies b1, b2. -/
theorem claim_C4 :
    (∀ ps : List Production, distinctHeads (ps.foldl addProduction [])) ∧
    (∀ (store : List Production) (H : ProductionHead) (b1 b2 : ProductionBody),
      addProduction (addProduction store (Production.new H b1)) (Production.new H b2)
        = addProduction store { head := H, body := [b1, b2] }) := by
  constructor
  · intro ps
    exact foldl_distinctHeads ps [] List.Pairwise.nil
  · intro store H b1 b2
    exact addProduction_merge_law store H b1 b2

theorem lookup_append_right (l1 l2 : List (String × Token)) (name : String)
    (h : l1.lookup name = none) : (l1 ++ l2).lookup name = l2.lookup name := by
  induction l1 with
  | nil => rfl
  | cons kv l1t ih =>
    obtain ⟨kname, kval⟩ := kv
    by_cases hk : (name == kname) = true
    · simp only [List.lookup, hk] at h
      exact Option.noConfusion h
    · rw [List.cons_append]
      simp only [List.lookup, hk] at h ⊢
      exact ih h

/-- C5 (amended): interning the same name twice through the same System
instance returns the same token (and leaves the state unchanged), whatever
kind is requested the second time; across different System instances the
codes are per-instance (each starts its counter at 100), so identical names
need not resolve to identical codes — see the counterexample. -/
theorem claim_C5 (σ : SystemState) (name : String) (k k2 : TokenKind) (t : Token)
    (σ2 : SystemState) (h : addToken σ name k = PRes.ok (t, σ2)) :
    addToken σ2 name k2 = PRes.ok (t, σ2) := by
  by_cases hemp : name = ""
  · rw [addToken, if_pos hemp] at h
    exact PRes.noConfusion h
  · rw [addToken, if_neg hemp] at h
    rw [addToken, if_neg hemp]
    cases hlook : σ.tokens.lookup name with
    | some t0 =>
      rw [hlook] at h
      simp only [PRes.ok.injEq, Prod.mk.injEq] at h
      obtain ⟨ht, hσ⟩ := h
      rw [← hσ, hlook, ht]
    | none =>
      rw [hlook] at h
      simp only [PRes.ok.injEq, Prod.mk.injEq] at h
      obtain ⟨ht, hσ⟩ := h
      have hlook2 : (σ.tokens ++ [(name, ({ kind := k, code := σ.token_id } : Token))]).lookup
          name = some { kind := k, code := σ.token_id } := by
        rw [lookup_append_right _ _ _ hlook]
        simp [List.lookup]
      rw [← hσ]
      simp only [hlook2]
      rw [ht]

/-- Witness for C5: re-interning x in the instance that has already interned
it returns the same token and state. -/
theorem claim_C5_witness :
    addToken { tokens := [("x", { kind := TokenKind.Terminal, code := 100 })],
               token_id := 101 } "x" TokenKind.Terminal
      = PRes.ok ({ kind := TokenKind.Terminal, code := 100 },
          { tokens := [("x", { kind := TokenKind.Terminal, code := 100 })],
            token_id := 101 }) :=
  claim_C5 SystemState.new "x" TokenKind.Terminal TokenKind.Terminal
    { kind := TokenKind.Terminal, code := 100 }
    { tokens := [("x", { kind := TokenKind.Terminal, code := 100 })], token_id := 101 }
    (by decide)

/-- C8 (amended): for the single rule G < S -> S G and the sequence
G S S S X, the head matches exactly at index 1, the position whose immediate
predecessor is G; one derivation then yields G S G S S X — the matched S is
replaced by S G while every other symbol, including the context G, passes
through unchanged — and not the claimed S G S S X. -/
theorem claim_C8 :
    (∀ i : ℕ, prodGS.head.matches strGSSSX i = some true ↔ i = 1) ∧
    deriveOnce (fun _ => (1:ℚ)/2) strGSSSX [prodGS]
      = PRes.ok [tokG, tokS, tokG, tokS, tokS, tokX] := by
  constructor
  · intro i
    constructor
    · intro hmat
      have hs := (matches_some_true_iff _ _ _).mp hmat
      rw [specMatches] at hs
      simp only [Bool.and_eq_true, decide_eq_true_eq] at hs
      have htar : strGSSSX[i]? = some prodGS.head.target := hs.1.1
      have hi : i < strGSSSX.length := by
        rw [List.getElem?_eq_some] at htar
        exact htar.1
      have hi5 : i < 5 := by simpa [strGSSSX] using hi
      interval_cases i
      · exact absurd hmat (by decide)
      · rfl
      · exact absurd hmat (by decide)
      · exact absurd hmat (by decide)
      · exact absurd hmat (by decide)
    · intro hi
      subst hi
      decide
  · decide

/-- Witness for C8: the head of G < S -> S G matches G S S S X at index 1. -/
theorem claim_C8_witness : prodGS.head.matches strGSSSX 1 = some true :=
  (claim_C8.1 1).mpr rfl

/-- C9 (amended): parse_head fails with a Parse error when the head is empty
and when the centre left over by the two splits does not reduce to exactly
one token; a repeated separator does not in itself cause a failure, because
each split happens at the first occurrence only and later separator tokens
are absorbed into a context — see the counterexample. -/
theorem claim_C9 (σ : SystemState) (terms : List Term)
    (hne : terms ≠ []) (hc : (headSplit terms).2.1.length ≠ 1) :
    parseProductionHead σ terms
      = PRes.err { kind := ErrorKind.Parse,
                   message := "There should be exactly one token as the head target" } ∧
    parseProductionHead σ []
      = PRes.err { kind := ErrorKind.Parse,
                   message := "no head in production string" } := by
  refine ⟨?_, rfl⟩
  rw [parseProductionHead]
  have hemp : terms.isEmpty = false := by
    cases terms with
    | nil => exact absurd rfl hne
    | cons a as => rfl
  rw [hemp]
  simp only [Bool.false_eq_true, if_false]
  cases hr : (headSplit terms).2.1 with
  | nil => rfl
  | cons c cs =>
    cases cs with
    | nil =>
      rw [hr] at hc
      simp at hc
    | cons c2 cs2 => rfl

/-- Witness for C9 at the two-token head A A, whose centre has two tokens. -/
theorem claim_C9_witness :
    parseProductionHead SystemState.new [termA, termA]
      = PRes.err { kind := ErrorKind.Parse,
                   message := "There should be exactly one token as the head target" } ∧
    parseProductionHead SystemState.new []
      = PRes.err { kind := ErrorKind.Parse,
                   message := "no head in production string" } :=
  claim_C9 SystemState.new [termA, termA] (by decide) (by decide)

end RustySystems
